import Mathlib

/-!
Verification of the `sanctum-token-ratio` fee/ratio arithmetic engine.

Shallow embedding conventions:
- `u64`/`u16`/`u128` values are embedded as `Nat` with explicit bounds
  (`< 2 ^ 64`, `< 2 ^ 16`) carried as hypotheses where they matter.
- Rust `u128::checked_mul` is embedded as `checked_mul_u128`, returning `none`
  exactly when the mathematical product does not fit in 128 bits.
- Rust panics (the `.unwrap()` in `eq`/`cmp_inner`) are embedded as `Option`:
  `none` marks the panic.
- Fallible Rust functions returning `Result<T, MathError>` are embedded as
  `Except MathError T`.
-/

namespace SanctumTokenRatio

/-- Embeds `u128::checked_mul`: `some (a * b)` when the product fits in 128
bits, `none` (Rust `None`) otherwise. Inputs are `Nat` embeddings of `u128`
values. -/
def checked_mul_u128 (a b : Nat) : Option Nat :=
  if a * b < 2 ^ 128 then some (a * b) else none

/-- Embeds `U64Ratio<N, D>` from `src/sanctum-token-ratio/src/u64_ratio/ratio.rs`
(instantiated at unsigned integer components, widened to `Nat`). -/
structure U64Ratio where
  num : Nat
  denom : Nat
  deriving DecidableEq

/-- Embeds `u128::cmp`: the `Ordering` of two `u128` values (here, of the `Nat`
embeddings of in-range `u128` values). -/
def u128_cmp (l r : Nat) : Ordering :=
  if l < r then .lt else if l = r then .eq else .gt

/-- Embeds `<U64Ratio as PartialEq>::eq` (ratio.rs lines 27-38): widen the
components to `u128`, cross-multiply with `checked_mul` + `unwrap` (a `none`
result embeds the panic on overflow), and compare the products. -/
def U64Ratio.eq (lhs rhs : U64Ratio) : Option Bool :=
  match checked_mul_u128 lhs.num rhs.denom, checked_mul_u128 rhs.num lhs.denom with
  | some l, some r => some (l == r)
  | _, _ => none

/-- Embeds `cmp_inner` (ratio.rs lines 43-62): widen, cross-multiply with
`checked_mul` + `unwrap` (`none` embeds the panic on overflow), and order the
products. -/
def cmp_inner (lhs rhs : U64Ratio) : Option Ordering :=
  match checked_mul_u128 lhs.num rhs.denom, checked_mul_u128 rhs.num lhs.denom with
  | some l, some r => some (u128_cmp l r)
  | _, _ => none

/-- Embeds `<U64Ratio as Ord>::cmp`, which delegates to `cmp_inner`. -/
def U64Ratio.cmp (lhs rhs : U64Ratio) : Option Ordering :=
  cmp_inner lhs rhs

/-- Embeds `<U64Ratio as PartialOrd>::partial_cmp`, which returns
`Some(cmp_inner(self, rhs))`. The outer `Option` embeds the possible panic
inside `cmp_inner`; the inner `Option` is Rust's `Option<Ordering>`. -/
def U64Ratio.opt_cmp (lhs rhs : U64Ratio) : Option (Option Ordering) :=
  (cmp_inner lhs rhs).map some

/-- `BPS_DENOMINATOR` from the crate: the fixed basis-point denominator. -/
def BPS_DENOMINATOR : Nat := 10000

/-- Embeds `AmtsAfterFee { amt_after_fee: u64, fees_charged: u64 }`. -/
structure AmtsAfterFee where
  amt_after_fee : Nat
  fees_charged : Nat
  deriving DecidableEq

/-- Modelled from the spec: the `MathError` enum itself is not under `src/`
(only `src/sanctum-token-ratio/src/err/onchain.rs` is); spec section 7 gives
the closed taxonomy `Overflow` and `InvalidFeeSpec`. -/
inductive MathError where
  | Overflow
  | InvalidFeeSpec
  deriving DecidableEq

/-- Embeds `U64FeeCeil { fee_num, fee_denom }` (components widened to `Nat`;
`U64BpsFeeCeil` instantiates it at `u16` components). -/
structure U64FeeCeil where
  fee_num : Nat
  fee_denom : Nat
  deriving DecidableEq

/-- Modelled from the spec: `U64FeeCeil::apply` is not under `src/`. Spec
section 4.3: fails with `InvalidFeeSpec` iff `fee_num > fee_denom`;
`fee_denom == 0` is treated as "no fee" (section 3); otherwise
`amt_after_fee = floor(amount * (fee_denom - fee_num) / fee_denom)` computed in
widened (128-bit) arithmetic that fails with `Overflow` if the product does not
fit (section 4.2), and `fees_charged = amount - amt_after_fee` by direct
subtraction. -/
def U64FeeCeil.apply (f : U64FeeCeil) (amt : Nat) : Except MathError AmtsAfterFee :=
  if f.fee_denom < f.fee_num then .error .InvalidFeeSpec
  else if f.fee_denom = 0 then .ok ⟨amt, 0⟩
  else
    match checked_mul_u128 amt (f.fee_denom - f.fee_num) with
    | none => .error .Overflow
    | some prod => .ok ⟨prod / f.fee_denom, amt - prod / f.fee_denom⟩

/-- Modelled from the spec: `U64FeeCeil::pseudo_reverse` is not under `src/`.
Spec section 4.3: returns `amt_after_fee` unchanged when `fee_num == 0` or
`fee_denom == 0`; fails with `InvalidFeeSpec` when `fee_num > fee_denom`;
otherwise takes the value range of original amounts that the complementary
ratio `(fee_denom - fee_num) / fee_denom` maps onto `amt_after_fee` under
round-down and returns one representative. Section 9 leaves the representative
choice open; this model documents the choice "lower bound of the interval":
`ceil(amt_after_fee * fee_denom / (fee_denom - fee_num))` for a nonzero
complementary numerator, `0` when the complementary numerator is zero and
`amt_after_fee == 0` (full-domain interval, section 4.2), and an error when the
interval is empty. -/
def U64FeeCeil.pseudo_reverse (f : U64FeeCeil) (amt_after_fee : Nat) :
    Except MathError Nat :=
  if f.fee_num = 0 ∨ f.fee_denom = 0 then .ok amt_after_fee
  else if f.fee_denom < f.fee_num then .error .InvalidFeeSpec
  else
    let cnum := f.fee_denom - f.fee_num
    if cnum = 0 then
      if amt_after_fee = 0 then .ok 0 else .error .Overflow
    else .ok ((amt_after_fee * f.fee_denom + (cnum - 1)) / cnum)

/-- Embeds `U64BpsFeeCeil(pub u16)` from
`src/sanctum-token-ratio/src/u64_bps_fee_ceil.rs`. -/
structure U64BpsFeeCeil where
  bps : Nat
  deriving DecidableEq

/-- Embeds `U64BpsFeeCeil::as_u64_fee_ceil`. -/
def U64BpsFeeCeil.as_u64_fee_ceil (f : U64BpsFeeCeil) : U64FeeCeil :=
  ⟨f.bps, BPS_DENOMINATOR⟩

/-- Embeds `U64BpsFeeCeil::apply` (delegates to `U64FeeCeil::apply`). -/
def U64BpsFeeCeil.apply (f : U64BpsFeeCeil) (amt : Nat) :
    Except MathError AmtsAfterFee :=
  f.as_u64_fee_ceil.apply amt

/-- Embeds `U64BpsFeeCeil::is_valid`. -/
def U64BpsFeeCeil.is_valid (f : U64BpsFeeCeil) : Bool :=
  f.bps ≤ BPS_DENOMINATOR

/-- Embeds `U64BpsFeeCeil::pseudo_reverse` (delegates to
`U64FeeCeil::pseudo_reverse`). -/
def U64BpsFeeCeil.pseudo_reverse (f : U64BpsFeeCeil) (amt_after_fee : Nat) :
    Except MathError Nat :=
  f.as_u64_fee_ceil.pseudo_reverse amt_after_fee

/-- Embeds `solana_program::ProgramError` restricted to the variants relevant
here (`Custom` carries the `u32` custom error code). -/
inductive ProgramError where
  | Custom (code : Nat)
  | InvalidArgument
  | InvalidInstructionData
  deriving DecidableEq

/-- `MATH_ERROR_PROGRAM_ERROR_CODE` from
`src/sanctum-token-ratio/src/err/onchain.rs` line 9. -/
def MATH_ERROR_PROGRAM_ERROR_CODE : Nat := 696969

/-- Embeds `impl From<MathError> for ProgramError` (onchain.rs lines 11-15):
the converted value is ignored and the fixed custom code is returned. -/
def mathErrorToProgramError (_e : MathError) : ProgramError :=
  .Custom MATH_ERROR_PROGRAM_ERROR_CODE

/-! Helper lemmas shared by the claim theorems. -/

lemma checked_mul_u128_eq_some (a b : Nat) (h : a * b < 2 ^ 128) :
    checked_mul_u128 a b = some (a * b) := by
  simp only [checked_mul_u128, if_pos h]

lemma u64Ratio_eq_eq_some (a b : U64Ratio) (ha : a.num * b.denom < 2 ^ 128)
    (hb : b.num * a.denom < 2 ^ 128) :
    U64Ratio.eq a b = some (a.num * b.denom == b.num * a.denom) := by
  rw [U64Ratio.eq, checked_mul_u128_eq_some _ _ ha, checked_mul_u128_eq_some _ _ hb]

lemma cmp_inner_eq_some (a b : U64Ratio) (ha : a.num * b.denom < 2 ^ 128)
    (hb : b.num * a.denom < 2 ^ 128) :
    cmp_inner a b = some (u128_cmp (a.num * b.denom) (b.num * a.denom)) := by
  rw [cmp_inner, checked_mul_u128_eq_some _ _ ha, checked_mul_u128_eq_some _ _ hb]

lemma u64_cross_mul_lt (a b : U64Ratio) (h1 : a.num < 2 ^ 64)
    (h2 : b.denom < 2 ^ 64) : a.num * b.denom < 2 ^ 128 := by
  calc a.num * b.denom < 2 ^ 64 * 2 ^ 64 :=
        Nat.mul_lt_mul_of_lt_of_lt h1 h2
    _ = 2 ^ 128 := by norm_num

lemma bps_prod_lt (bps amt : Nat) (ha : amt < 2 ^ 64) :
    amt * (10000 - bps) < 2 ^ 128 := by
  have h1 : amt * (10000 - bps) ≤ amt * 10000 :=
    Nat.mul_le_mul (Nat.le_refl amt) (by omega)
  have h2 : amt * 10000 < 2 ^ 64 * 10000 :=
    mul_lt_mul_of_pos_right ha (by norm_num)
  calc amt * (10000 - bps) ≤ amt * 10000 := h1
    _ < 2 ^ 64 * 10000 := h2
    _ < 2 ^ 128 := by norm_num

lemma bps_apply_eq (bps amt : Nat) (hb : bps ≤ 10000)
    (hlt : amt * (10000 - bps) < 2 ^ 128) :
    U64BpsFeeCeil.apply ⟨bps⟩ amt =
      .ok ⟨amt * (10000 - bps) / 10000, amt - amt * (10000 - bps) / 10000⟩ := by
  simp only [U64BpsFeeCeil.apply, U64BpsFeeCeil.as_u64_fee_ceil, U64FeeCeil.apply,
    BPS_DENOMINATOR, checked_mul_u128_eq_some _ _ hlt]
  rw [if_neg (by omega), if_neg (by omega)]

lemma bps_aaf_le (bps amt : Nat) : amt * (10000 - bps) / 10000 ≤ amt := by
  have h1 : amt * (10000 - bps) ≤ amt * 10000 :=
    Nat.mul_le_mul (Nat.le_refl amt) (by omega)
  calc amt * (10000 - bps) / 10000 ≤ amt * 10000 / 10000 := Nat.div_le_div_right h1
    _ = amt := Nat.mul_div_cancel amt (by norm_num)

/-- C1: for every `U64BpsFeeCeil` with `bps ≤ 10_000` and every u64 `amount`,
`apply` succeeds and returns an `AmtsAfterFee` with
`amt_after_fee + fees_charged = amount` exactly and `amt_after_fee ≤ amount`. -/
theorem u64_bps_fee_ceil_apply_exact (bps amt : Nat) (hb : bps ≤ 10000)
    (ha : amt < 2 ^ 64) :
    ∃ r : AmtsAfterFee, U64BpsFeeCeil.apply ⟨bps⟩ amt = .ok r ∧
      r.amt_after_fee + r.fees_charged = amt ∧ r.amt_after_fee ≤ amt := by
  refine ⟨_, bps_apply_eq bps amt hb (bps_prod_lt bps amt ha), ?_, bps_aaf_le bps amt⟩
  have h := bps_aaf_le bps amt
  simp only
  omega

/-- Witness for C1 at `bps = 25`, `amount = 1000`. -/
theorem u64_bps_fee_ceil_apply_exact_witness :
    ∃ r : AmtsAfterFee, U64BpsFeeCeil.apply ⟨25⟩ 1000 = .ok r ∧
      r.amt_after_fee + r.fees_charged = 1000 ∧ r.amt_after_fee ≤ 1000 :=
  u64_bps_fee_ceil_apply_exact 25 1000 (by norm_num) (by norm_num)

/-- C7: for every u64 `amount`, `U64BpsFeeCeil(0).apply(amount)` succeeds with
`amt_after_fee = amount` and `fees_charged = 0`. -/
theorem u64_bps_fee_ceil_zero_fee_identity (amt : Nat) (ha : amt < 2 ^ 64) :
    U64BpsFeeCeil.apply ⟨0⟩ amt = .ok ⟨amt, 0⟩ := by
  have h := bps_apply_eq 0 amt (by norm_num) (bps_prod_lt 0 amt ha)
  have hd : amt * (10000 - 0) / 10000 = amt := Nat.mul_div_cancel amt (by norm_num)
  rw [h, hd]
  simp only [Nat.sub_self]

/-- Witness for C7 at `amount = 1000000`. -/
theorem u64_bps_fee_ceil_zero_fee_identity_witness :
    U64BpsFeeCeil.apply ⟨0⟩ 1000000 = .ok ⟨1000000, 0⟩ :=
  u64_bps_fee_ceil_zero_fee_identity 1000000 (by norm_num)

lemma bps_apply_invalid (bps amt : Nat) (h : 10000 < bps) :
    U64BpsFeeCeil.apply ⟨bps⟩ amt = .error .InvalidFeeSpec := by
  simp only [U64BpsFeeCeil.apply, U64BpsFeeCeil.as_u64_fee_ceil, U64FeeCeil.apply,
    BPS_DENOMINATOR]
  rw [if_pos h]

/-- C6: for every u16 `bps`, `is_valid` returns exactly `bps ≤ 10_000`; `apply`
succeeds iff `is_valid` is true, and fails with `MathError.InvalidFeeSpec`
exactly when `bps > 10_000`. -/
theorem u64_bps_fee_ceil_validity (bps amt : Nat) (hbps : bps < 2 ^ 16)
    (ha : amt < 2 ^ 64) :
    (U64BpsFeeCeil.is_valid ⟨bps⟩ = true ↔ bps ≤ 10000) ∧
    ((∃ r, U64BpsFeeCeil.apply ⟨bps⟩ amt = .ok r) ↔
      U64BpsFeeCeil.is_valid ⟨bps⟩ = true) ∧
    (U64BpsFeeCeil.apply ⟨bps⟩ amt = .error MathError.InvalidFeeSpec ↔
      10000 < bps) := by
  have hval : U64BpsFeeCeil.is_valid ⟨bps⟩ = true ↔ bps ≤ 10000 := by
    simp [U64BpsFeeCeil.is_valid, BPS_DENOMINATOR]
  refine ⟨hval, ⟨?_, ?_⟩, ⟨?_, ?_⟩⟩
  · rintro ⟨r, hr⟩
    rw [hval]
    by_contra hgt
    rw [bps_apply_invalid bps amt (by omega)] at hr
    exact absurd hr (by simp)
  · intro hv
    exact ⟨_, bps_apply_eq bps amt (hval.mp hv) (bps_prod_lt bps amt ha)⟩
  · intro herr
    by_contra hle
    rw [bps_apply_eq bps amt (by omega) (bps_prod_lt bps amt ha)] at herr
    exact absurd herr (by simp)
  · intro hgt
    exact bps_apply_invalid bps amt hgt

/-- Witness for C6 at `bps = 10001`, `amount = 5`. -/
theorem u64_bps_fee_ceil_validity_witness :
    (U64BpsFeeCeil.is_valid ⟨10001⟩ = true ↔ (10001 : Nat) ≤ 10000) ∧
    ((∃ r, U64BpsFeeCeil.apply ⟨10001⟩ 5 = .ok r) ↔
      U64BpsFeeCeil.is_valid ⟨10001⟩ = true) ∧
    (U64BpsFeeCeil.apply ⟨10001⟩ 5 = .error MathError.InvalidFeeSpec ↔
      (10000 : Nat) < 10001) :=
  u64_bps_fee_ceil_validity 10001 5 (by norm_num) (by norm_num)

/-- C9: converting any `MathError` value into a `ProgramError` yields
`ProgramError.Custom 696969`, regardless of the variant. -/
theorem math_error_to_program_error_code (e : MathError) :
    mathErrorToProgramError e = ProgramError.Custom 696969 := rfl

/-- C5: two `U64Ratio` values with u64 components compare equal under
`PartialEq::eq` exactly when the widened cross-products
`a.num * b.denom` and `b.num * a.denom` agree. -/
theorem u64_ratio_eq_iff_cross_mul (a b : U64Ratio) (h1 : a.num < 2 ^ 64)
    (h2 : a.denom < 2 ^ 64) (h3 : b.num < 2 ^ 64) (h4 : b.denom < 2 ^ 64) :
    U64Ratio.eq a b = some true ↔ a.num * b.denom = b.num * a.denom := by
  rw [u64Ratio_eq_eq_some a b (u64_cross_mul_lt a b h1 h4) (u64_cross_mul_lt b a h3 h2)]
  simp

/-- Witness for C5: the unnormalized representations `1/2` and `2/4` compare
equal. -/
theorem u64_ratio_eq_iff_cross_mul_witness :
    U64Ratio.eq ⟨1, 2⟩ ⟨2, 4⟩ = some true :=
  (u64_ratio_eq_iff_cross_mul ⟨1, 2⟩ ⟨2, 4⟩ (by norm_num) (by norm_num)
    (by norm_num) (by norm_num)).mpr (by norm_num)

/-- C8: with u64 components, the widened u128 cross-products always fit, so
`checked_mul` returns `Some`, `eq` and `cmp_inner` never panic, and
`partial_cmp` always returns `Some` ordering. -/
theorem u64_ratio_no_overflow (a b : U64Ratio) (h1 : a.num < 2 ^ 64)
    (h2 : a.denom < 2 ^ 64) (h3 : b.num < 2 ^ 64) (h4 : b.denom < 2 ^ 64) :
    checked_mul_u128 a.num b.denom = some (a.num * b.denom) ∧
    checked_mul_u128 b.num a.denom = some (b.num * a.denom) ∧
    (∃ v : Bool, U64Ratio.eq a b = some v) ∧
    (∃ o : Ordering, cmp_inner a b = some o ∧
      U64Ratio.opt_cmp a b = some (some o)) := by
  have hab := u64_cross_mul_lt a b h1 h4
  have hba := u64_cross_mul_lt b a h3 h2
  refine ⟨checked_mul_u128_eq_some _ _ hab, checked_mul_u128_eq_some _ _ hba,
    ⟨_, u64Ratio_eq_eq_some a b hab hba⟩, ⟨_, cmp_inner_eq_some a b hab hba, ?_⟩⟩
  rw [U64Ratio.opt_cmp, cmp_inner_eq_some a b hab hba]
  rfl

/-- Witness for C8 at `1/2` and `3/4`. -/
theorem u64_ratio_no_overflow_witness :
    checked_mul_u128 (U64Ratio.mk 1 2).num (U64Ratio.mk 3 4).denom =
      some ((U64Ratio.mk 1 2).num * (U64Ratio.mk 3 4).denom) ∧
    checked_mul_u128 (U64Ratio.mk 3 4).num (U64Ratio.mk 1 2).denom =
      some ((U64Ratio.mk 3 4).num * (U64Ratio.mk 1 2).denom) ∧
    (∃ v : Bool, U64Ratio.eq ⟨1, 2⟩ ⟨3, 4⟩ = some v) ∧
    (∃ o : Ordering, cmp_inner ⟨1, 2⟩ ⟨3, 4⟩ = some o ∧
      U64Ratio.opt_cmp ⟨1, 2⟩ ⟨3, 4⟩ = some (some o)) :=
  u64_ratio_no_overflow ⟨1, 2⟩ ⟨3, 4⟩ (by norm_num) (by norm_num) (by norm_num)
    (by norm_num)

lemma eq_of_zero_denoms (a b : U64Ratio) (hra : a.denom = 0) (hrb : b.denom = 0) :
    U64Ratio.eq a b = some true ∧ cmp_inner a b = some .eq := by
  have h1 : a.num * b.denom = 0 := by rw [hrb, Nat.mul_zero]
  have h2 : b.num * a.denom = 0 := by rw [hra, Nat.mul_zero]
  constructor
  · rw [u64Ratio_eq_eq_some a b (by rw [h1]; norm_num) (by rw [h2]; norm_num), h1, h2]
    rfl
  · rw [cmp_inner_eq_some a b (by rw [h1]; norm_num) (by rw [h2]; norm_num), h1, h2]
    rfl

/-- C10: all zero-denominator ratios collapse into one equivalence class:
any two of them are `eq` and `cmp_inner` returns `Ordering.eq` regardless of
their numerators, and any such ratio also compares equal to any ratio with
both `num = 0` and `denom = 0`. -/
theorem u64_ratio_zero_denom_collapse (a b c : U64Ratio) (hra : a.denom = 0)
    (hrb : b.denom = 0) (_hcn : c.num = 0) (hcd : c.denom = 0) :
    (U64Ratio.eq a b = some true ∧ cmp_inner a b = some .eq) ∧
    (U64Ratio.eq a c = some true ∧ cmp_inner a c = some .eq) :=
  ⟨eq_of_zero_denoms a b hra hrb, eq_of_zero_denoms a c hra hcd⟩

/-- Witness for C10 at `3/0`, `77/0`, `0/0`. -/
theorem u64_ratio_zero_denom_collapse_witness :
    (U64Ratio.eq ⟨3, 0⟩ ⟨77, 0⟩ = some true ∧
      cmp_inner ⟨3, 0⟩ ⟨77, 0⟩ = some .eq) ∧
    (U64Ratio.eq ⟨3, 0⟩ ⟨0, 0⟩ = some true ∧
      cmp_inner ⟨3, 0⟩ ⟨0, 0⟩ = some .eq) :=
  u64_ratio_zero_denom_collapse ⟨3, 0⟩ ⟨77, 0⟩ ⟨0, 0⟩ rfl rfl rfl rfl

/-- C3 fails on the code: `eq` (and the `cmp`-induced equality) is not
transitive over the full domain. Concretely `1/0 == 0/0` and `0/0 == 0/5`
both hold, yet `1/0 == 0/5` is false (`cmp` orders them strictly). -/
theorem u64_ratio_eq_not_transitive :
    U64Ratio.eq ⟨1, 0⟩ ⟨0, 0⟩ = some true ∧
    U64Ratio.eq ⟨0, 0⟩ ⟨0, 5⟩ = some true ∧
    U64Ratio.eq ⟨1, 0⟩ ⟨0, 5⟩ = some false ∧
    U64Ratio.cmp ⟨1, 0⟩ ⟨0, 0⟩ = some .eq ∧
    U64Ratio.cmp ⟨0, 0⟩ ⟨0, 5⟩ = some .eq ∧
    U64Ratio.cmp ⟨1, 0⟩ ⟨0, 5⟩ = some .gt :=
  ⟨rfl, rfl, rfl, rfl, rfl, rfl⟩

/-- C4 fails on the code at a shared zero component: with shared denominator 0,
`cmp` returns `Ordering.eq` although the numerators 0 and 1 compare `lt`; with
shared numerator 0, `cmp` returns `Ordering.eq` although the reversed
comparison of the denominators 1 and 2 is `gt`. -/
theorem u64_ratio_ord_shared_component_fails :
    U64Ratio.cmp ⟨0, 0⟩ ⟨1, 0⟩ = some .eq ∧ u128_cmp 0 1 = .lt ∧
    U64Ratio.cmp ⟨0, 1⟩ ⟨0, 2⟩ = some .eq ∧ u128_cmp 2 1 = .gt :=
  ⟨rfl, rfl, rfl, rfl⟩

lemma ceil_div_mul_lower (m k : Nat) (hk : 0 < k) :
    m ≤ (m + (k - 1)) / k * k := by
  have h1 := Nat.div_add_mod (m + (k - 1)) k
  have h2 : (m + (k - 1)) % k < k := Nat.mod_lt _ hk
  have h3 : (m + (k - 1)) / k * k = k * ((m + (k - 1)) / k) := Nat.mul_comm _ _
  omega

lemma ceil_div_mul_upper (m k : Nat) :
    (m + (k - 1)) / k * k ≤ m + (k - 1) :=
  Nat.div_mul_le_self _ _

lemma ceil_div_le (m k n : Nat) (hk : 0 < k) (h : m ≤ n * k) :
    (m + (k - 1)) / k ≤ n := by
  have h2 : m + (k - 1) ≤ n * k + (k - 1) := by omega
  calc (m + (k - 1)) / k ≤ (n * k + (k - 1)) / k := Nat.div_le_div_right h2
    _ = n + (k - 1) / k := by rw [Nat.mul_comm n k, Nat.mul_add_div hk]
    _ = n := by rw [Nat.div_eq_of_lt (by omega : k - 1 < k), Nat.add_zero]

lemma bps_pseudo_reverse_zero (y : Nat) :
    U64BpsFeeCeil.pseudo_reverse ⟨0⟩ y = .ok y := by
  simp only [U64BpsFeeCeil.pseudo_reverse, U64BpsFeeCeil.as_u64_fee_ceil,
    U64FeeCeil.pseudo_reverse, BPS_DENOMINATOR]
  rw [if_pos (Or.inl trivial)]

lemma bps_pseudo_reverse_mid (bps y : Nat) (h1 : 0 < bps) (h2 : bps < 10000) :
    U64BpsFeeCeil.pseudo_reverse ⟨bps⟩ y =
      .ok ((y * 10000 + (10000 - bps - 1)) / (10000 - bps)) := by
  simp only [U64BpsFeeCeil.pseudo_reverse, U64BpsFeeCeil.as_u64_fee_ceil,
    U64FeeCeil.pseudo_reverse, BPS_DENOMINATOR]
  rw [if_neg (by omega), if_neg (by omega), if_neg (by omega)]

/-- C2: for every `U64BpsFeeCeil` with `bps ≤ 10_000` and every output in the
image of `apply` (witnessed by an original u64 amount `a`), `pseudo_reverse`
succeeds and returns a representative `x` (no larger than `a`) on which `apply`
succeeds and reproduces the same `amt_after_fee`; when `bps = 0` the
representative is the output itself. -/
theorem u64_bps_fee_ceil_pseudo_reverse_sound (bps a : Nat) (hb : bps ≤ 10000)
    (ha : a < 2 ^ 64) (r : AmtsAfterFee)
    (hr : U64BpsFeeCeil.apply ⟨bps⟩ a = .ok r) :
    ∃ x, U64BpsFeeCeil.pseudo_reverse ⟨bps⟩ r.amt_after_fee = .ok x ∧ x ≤ a ∧
      (∃ r2 : AmtsAfterFee, U64BpsFeeCeil.apply ⟨bps⟩ x = .ok r2 ∧
        r2.amt_after_fee = r.amt_after_fee) ∧
      (bps = 0 → x = r.amt_after_fee) := by
  have hy_eq : r.amt_after_fee = a * (10000 - bps) / 10000 := by
    rw [bps_apply_eq bps a hb (bps_prod_lt bps a ha)] at hr
    injection hr with h
    rw [← h]
  rw [hy_eq]
  by_cases hbz : bps = 0
  · subst hbz
    have hid : a * (10000 - 0) / 10000 = a := by
      rw [Nat.sub_zero]
      exact Nat.mul_div_cancel a (by norm_num)
    rw [hid]
    exact ⟨a, bps_pseudo_reverse_zero a, Nat.le_refl a,
      ⟨_, bps_apply_eq 0 a (by norm_num) (bps_prod_lt 0 a ha), hid⟩, fun _ => rfl⟩
  · by_cases hbf : bps = 10000
    · subst hbf
      have hz : a * (10000 - 10000) / 10000 = 0 := by
        rw [Nat.sub_self, Nat.mul_zero, Nat.zero_div]
      rw [hz]
      exact ⟨0, rfl, Nat.zero_le a, ⟨⟨0, 0⟩, rfl, rfl⟩, fun _ => rfl⟩
    · have h1 : 0 < bps := by omega
      have h2 : bps < 10000 := by omega
      have hknz : 0 < 10000 - bps := by omega
      set y := a * (10000 - bps) / 10000 with hy
      set x := (y * 10000 + (10000 - bps - 1)) / (10000 - bps) with hx
      have f1 : y * 10000 ≤ a * (10000 - bps) := by
        rw [hy]
        exact Nat.div_mul_le_self _ _
      have f4 : x ≤ a := by
        rw [hx]
        exact ceil_div_le _ _ a hknz f1
      have f2 : y * 10000 ≤ x * (10000 - bps) := by
        rw [hx]
        exact ceil_div_mul_lower (y * 10000) (10000 - bps) hknz
      have f3 : x * (10000 - bps) ≤ y * 10000 + (10000 - bps - 1) := by
        rw [hx]
        exact ceil_div_mul_upper (y * 10000) (10000 - bps)
      have hx64 : x < 2 ^ 64 := by omega
      have f5 : x * (10000 - bps) / 10000 = y := by
        apply Nat.div_eq_of_lt_le f2
        have hexp : (y + 1) * 10000 = y * 10000 + 10000 := by ring
        omega
      refine ⟨x, ?_, f4, ⟨_, bps_apply_eq bps x hb (bps_prod_lt bps x hx64), f5⟩,
        fun h0 => absurd h0 hbz⟩
      rw [bps_pseudo_reverse_mid bps y h1 h2, hx]

/-- Witness for C2 at `bps = 5000`, original amount `7`
(`apply` gives `amt_after_fee = 3`, `fees_charged = 4`). -/
theorem u64_bps_fee_ceil_pseudo_reverse_sound_witness :
    ∃ x, U64BpsFeeCeil.pseudo_reverse ⟨5000⟩ 3 = .ok x ∧ x ≤ 7 ∧
      (∃ r2 : AmtsAfterFee, U64BpsFeeCeil.apply ⟨5000⟩ x = .ok r2 ∧
        r2.amt_after_fee = 3) ∧
      ((5000 : Nat) = 0 → x = 3) :=
  u64_bps_fee_ceil_pseudo_reverse_sound 5000 7 (by norm_num) (by norm_num)
    ⟨3, 4⟩ rfl
